import Mathlib

/-!
Verification development for the create-intelligent-textbook pipeline.

The definitions below are a shallow embedding of the TypeScript source:
  - src/steps/learning-graph.ts   (parseConceptTable, normalizeTaxonomy, normalizeBloom)
  - src/steps/chapter-structure.ts (parseChapterOutlines)
  - src/pipeline.ts               (steps, runPipeline)
  - src/claude.ts                 (generateParallel)
  - src/steps/chapter-content.ts  (generateChapterContent)

Strings are modelled as lists of characters; JavaScript numbers are modelled
as rationals (the decimal-literal fragment of the Number coercion, which is
the only fragment the parsers exercise: no hex, exponent or Infinity forms).
-/

namespace Textbook

/-- The ASCII whitespace characters matched by the JavaScript regex class
backslash-s and by String.prototype.trim (the Unicode space characters are
outside the modelled alphabet). -/
def isJsWs (c : Char) : Bool :=
  c = ' ' || c = '\t' || c = '\n' || c = '\r' || c.toNat = 11 || c.toNat = 12

/-- Model of String.prototype.trim: drop leading and trailing whitespace. -/
def trimChars (l : List Char) : List Char :=
  ((l.dropWhile isJsWs).reverse.dropWhile isJsWs).reverse

/-- Model of String.prototype.split with a one-character separator.
As in JavaScript, splitting the empty string yields one empty piece. -/
def splitOnChar (sep : Char) : List Char → List (List Char)
  | [] => [[]]
  | c :: rest =>
    if c = sep then [] :: splitOnChar sep rest
    else
      match splitOnChar sep rest with
      | seg :: segs => (c :: seg) :: segs
      | [] => [[c]]

/-- Model of the lower-casing used by String.prototype.toLowerCase on the
ASCII alphabet. -/
def jsToLower (c : Char) : Char :=
  if 'A' ≤ c && c ≤ 'Z' then Char.ofNat (c.toNat + 32) else c

/-- Lower-case every character. -/
def lowerStr (l : List Char) : List Char := l.map jsToLower

/-- Case-insensitive literal match: if the lower-cased input starts with the
(pre-lowercased) needle, return the remainder. -/
def stripCI : List Char → List Char → Option (List Char)
  | [], hay => some hay
  | _ :: _, [] => none
  | n :: ns, h :: hs => if jsToLower h = n then stripCI ns hs else none

/-- Model of String.prototype.includes: substring containment. -/
def containsSub (needle : List Char) : List Char → Bool
  | [] => needle.isEmpty
  | c :: rest => needle.isPrefixOf (c :: rest) || containsSub needle rest

/-- Scan for the first case-insensitive occurrence of a (pre-lowercased)
literal and return the text that follows it. -/
def findAfterCI (label : List Char) : List Char → Option (List Char)
  | [] => if label.isEmpty then some [] else none
  | c :: rest =>
    match stripCI label (c :: rest) with
    | some r => some r
    | none => findAfterCI label rest

/-- Decimal value of a digit string. -/
def digitsToNat (l : List Char) : Nat :=
  l.foldl (fun acc c => acc * 10 + (c.toNat - 48)) 0

/-- The rational with the given sign whose absolute value is numAbs over
den, built directly in reduced form so that kernel reduction (and hence the
decide tactic) can evaluate it; the rational-arithmetic operations of the
library are irreducible by design and are avoided throughout. -/
def ratOfParts (neg : Bool) (numAbs den : Nat) (hden : 0 < den) : ℚ :=
  have hg : 0 < Nat.gcd numAbs den := Nat.gcd_pos_of_pos_right _ hden
  Rat.mk'
    (if neg then -((numAbs / Nat.gcd numAbs den : Nat) : Int)
     else ((numAbs / Nat.gcd numAbs den : Nat) : Int))
    (den / Nat.gcd numAbs den)
    (Nat.pos_iff_ne_zero.mp
      (Nat.div_pos (Nat.le_of_dvd hden (Nat.gcd_dvd_right _ _)) hg))
    (by
      have h := Nat.coprime_div_gcd_div_gcd (m := numAbs) (n := den) hg
      cases neg <;> simpa [Int.natAbs_neg] using h)

/-- Model of the JavaScript Number coercion on strings, restricted to the
decimal-literal fragment: whitespace is trimmed, the empty string is 0, an
optional sign precedes digits with an optional fractional part (the value of
sign ip . fp is the reduced fraction of ip concatenated with fp over ten to
the length of fp).  none stands for NaN. -/
def jsNumber (l : List Char) : Option ℚ :=
  let t := trimChars l
  if t.isEmpty then some 0
  else
    let core : List Char × Bool :=
      match t with
      | '-' :: r => (r, true)
      | '+' :: r => (r, false)
      | r => (r, false)
    let rest := core.1
    let neg := core.2
    let ip := rest.takeWhile Char.isDigit
    let r1 := rest.dropWhile Char.isDigit
    match r1 with
    | '.' :: rr =>
      let fp := rr.takeWhile Char.isDigit
      if (rr.dropWhile Char.isDigit).isEmpty && !(ip.isEmpty && fp.isEmpty) then
        some (ratOfParts neg (digitsToNat ip * 10 ^ fp.length + digitsToNat fp)
          (10 ^ fp.length) (pow_pos (by decide) _))
      else none
    | r2 =>
      if r2.isEmpty && !ip.isEmpty then
        some (ratOfParts neg (digitsToNat ip) 1 Nat.one_pos)
      else none

/-- The text before the first period, as computed by value.split(".")[0]. -/
def leadingDotSegment (l : List Char) : List Char :=
  (splitOnChar '.' l).getD 0 []

/-! ## Learning-graph concept table (src/steps/learning-graph.ts) -/

/-- A Concept record, as in src/types.ts. -/
structure Concept where
  id : ℚ
  name : String
  chapter : ℚ
  dependencies : List ℚ
  taxonomy : String
  bloomLevel : String
deriving DecidableEq

/-- The cell list of one table line: split on the column separator, trim each
cell, and drop empty cells, mirroring
line.split(pipe).map(trim).filter(Boolean). -/
def cellsOf (line : List Char) : List (List Char) :=
  ((splitOnChar '|' line).map trimChars).filter (fun c => !c.isEmpty)

/-- normalizeTaxonomy from learning-graph.ts: case-insensitive substring
match, defaulting to Core. -/
def normalizeTaxonomy (raw : List Char) : String :=
  let lower := lowerStr raw
  if containsSub ("found".toList) lower then "Foundation"
  else if containsSub ("adv".toList) lower then "Advanced"
  else "Core"

/-- normalizeBloom from learning-graph.ts: case-insensitive substring match
against the six canonical labels, keeping the raw trimmed text otherwise. -/
def normalizeBloom (raw : List Char) : String :=
  let lower := lowerStr raw
  if containsSub ("remember".toList) lower then "Remember"
  else if containsSub ("understand".toList) lower then "Understand"
  else if containsSub ("apply".toList) lower then "Apply"
  else if containsSub ("analyz".toList) lower then "Analyze"
  else if containsSub ("evaluat".toList) lower then "Evaluate"
  else if containsSub ("creat".toList) lower then "Create"
  else String.mk (trimChars raw)

/-- The chapter cell coercion Number(cell) with the or-1 fallback: NaN and 0
(the falsy numbers) become 1. -/
def chapterOfCell (cell : List Char) : ℚ :=
  match jsNumber cell with
  | some q => if q = 0 then 1 else q
  | none => 1

/-- The dependency cell: split on commas, coerce each trimmed piece with
Number, keep pieces that are numeric, positive and different from the row id. -/
def depsOfCell (id : ℚ) (cell : List Char) : List ℚ :=
  (splitOnChar ',' cell).filterMap (fun s =>
    (jsNumber (trimChars s)).bind (fun n =>
      if 0 < n ∧ n ≠ id then some n else none))

/-- Assemble a Concept from the cells of a qualifying row. -/
def mkConcept (cells : List (List Char)) (id : ℚ) : Concept :=
  { id := id
    name := String.mk (cells.getD 1 [])
    chapter := chapterOfCell (cells.getD 2 [])
    dependencies := depsOfCell id (cells.getD 3 [])
    taxonomy := normalizeTaxonomy (cells.getD 4 [])
    bloomLevel := normalizeBloom (cells.getD 5 []) }

/-- One iteration of the parseConceptTable loop: a line yields a record when
it has at least six non-empty trimmed cells and its first cell coerces to a
number (the continue branches of the source loop return none). -/
def rowToConcept (line : List Char) : Option Concept :=
  let cells := cellsOf line
  if cells.length < 6 then none
  else if (cells.getD 0 []).isEmpty then none
  else
    match jsNumber (cells.getD 0 []) with
    | none => none
    | some id => some (mkConcept cells id)

/-- parseConceptTable from learning-graph.ts: keep the lines containing the
column separator and convert each qualifying row. -/
def parseConceptTable (raw : String) : List Concept :=
  ((splitOnChar '\n' raw.toList).filter (fun l => l.contains '|')).filterMap rowToConcept

/-! ## Chapter-outline extractor (src/steps/chapter-structure.ts) -/

/-- A ChapterOutline record, as in src/types.ts.  The chapter number comes
from a digits-only capture group, so it is a natural number. -/
structure ChapterOutline where
  number : Nat
  title : String
  summary : String
  concepts : List ℚ
deriving DecidableEq

/-- Helper for the block delimiter split: the split regex matches a maximal
run of three or more dashes, so once three dashes are seen the rest of the
run is consumed. -/
def dropLeadingDashes : List Char → List Char
  | '-' :: r => dropLeadingDashes r
  | r => r

/-- Model of raw.split on the regex of three-or-more dashes.  The
accumulator acc holds the current segment (in order) and d counts pending
dashes that have not yet formed a delimiter. -/
def splitDashGo (acc : List Char) (d : Nat) : List Char → List (List Char)
  | [] => if 3 ≤ d then [acc, []] else [acc ++ List.replicate d '-']
  | '-' :: rest => splitDashGo acc (d + 1) rest
  | c :: rest =>
    if 3 ≤ d then acc :: splitDashGo [c] 0 rest
    else splitDashGo (acc ++ List.replicate d '-' ++ [c]) 0 rest

/-- Split on runs of three or more dashes, as raw.split of the dash regex. -/
def splitDashRuns (l : List Char) : List (List Char) :=
  splitDashGo [] 0 l

/-- Try to match the chapter heading regex (hash hash, whitespace, the word
Chapter case-insensitively, whitespace, digits, a colon, optional whitespace,
then a non-empty rest-of-line capture) at the start of the input, returning
the chapter number and the raw title capture.  Greedy whitespace and digit
runs are maximal-munch, which agrees with the regex because each run is
followed by a character outside its class. -/
def matchHeaderHere (l : List Char) : Option (Nat × List Char) :=
  match l with
  | '#' :: '#' :: r0 =>
    if (r0.takeWhile isJsWs).isEmpty then none
    else
      match stripCI ("chapter".toList) (r0.dropWhile isJsWs) with
      | none => none
      | some r2 =>
        if (r2.takeWhile isJsWs).isEmpty then none
        else
          let r3 := r2.dropWhile isJsWs
          let digs := r3.takeWhile Char.isDigit
          if digs.isEmpty then none
          else
            match r3.dropWhile Char.isDigit with
            | ':' :: r5 =>
              let r6 := r5.dropWhile isJsWs
              let title := r6.takeWhile (fun c => c ≠ '\n')
              if title.isEmpty then none else some (digitsToNat digs, title)
            | _ => none
  | _ => none

/-- First match of the chapter heading regex anywhere in the block (the
JavaScript match scans left to right). -/
def findHeader : List Char → Option (Nat × List Char)
  | [] => none
  | c :: rest =>
    match matchHeaderHere (c :: rest) with
    | some res => some res
    | none => findHeader rest

/-- Continuation lines of the summary capture: each following line is taken
while it is non-empty and does not start with an asterisk (the regex group of
newline, one char outside star and newline, then rest of line, repeated). -/
def summaryContLines : List (List Char) → List (List Char)
  | [] => []
  | line :: rest =>
    match line with
    | c :: _ => if c = '*' then [] else line :: summaryContLines rest
    | [] => []

/-- Model of the summary extraction: find the Summary label
case-insensitively, skip whitespace, capture the first line (characters
outside newline and star) and its continuation lines, then join with spaces
(the newline-to-space replace) and trim.  When the first line capture is
empty the regex engine would retry at later label occurrences; the model
returns the empty summary, which coincides after trimming on all inputs
whose captures are whitespace. -/
def extractSummary (block : List Char) : List Char :=
  match findAfterCI ("**summary:**".toList) block with
  | none => []
  | some rest =>
    let r := rest.dropWhile isJsWs
    let line1 := r.takeWhile (fun c => c ≠ '\n' && c ≠ '*')
    if line1.isEmpty then []
    else
      let r2 := r.dropWhile (fun c => c ≠ '\n' && c ≠ '*')
      let cont :=
        match r2 with
        | '\n' :: r3 => summaryContLines (splitOnChar '\n' r3)
        | _ => []
      trimChars (line1 ++ cont.foldr (fun ln acc => (' ' :: ln) ++ acc) [])

/-- The Concept IDs field parser: split on commas, take the text before the
first period of each trimmed piece, coerce with Number, and keep numeric
positive results. -/
def parseConceptIdsField (field : List Char) : List ℚ :=
  (splitOnChar ',' field).filterMap (fun p =>
    (jsNumber (leadingDotSegment (trimChars p))).bind (fun n =>
      if 0 < n then some n else none))

/-- Model of the Concept IDs capture: find the label case-insensitively,
skip whitespace, capture to the end of the line and parse the field.  A
label whose rest is all whitespace yields the empty list, exactly as the
regex (whose whitespace-only captures parse to no identifiers) does. -/
def extractConceptIds (block : List Char) : List ℚ :=
  match findAfterCI ("**concept ids:**".toList) block with
  | none => []
  | some rest =>
    let r := rest.dropWhile isJsWs
    parseConceptIdsField (r.takeWhile (fun c => c ≠ '\n'))

/-- The concept identifiers derived from a concept-map entry list (each
entry like an id, a period and a name): Number of the text before the first
period, keeping every numeric result (no positivity filter on this path). -/
def conceptIdsOfEntries (entries : List String) : List ℚ :=
  entries.filterMap (fun e => jsNumber (leadingDotSegment e.toList))

/-- One block of the chapter-structure output: blocks without a chapter
heading are discarded; the concept list falls back to the chapter-to-concept
map when the parsed list is empty. -/
def parseBlock (cmap : Nat → Option (List String)) (block : List Char) :
    Option ChapterOutline :=
  match findHeader block with
  | none => none
  | some (number, titleRaw) =>
    let parsedIds := extractConceptIds block
    let concepts :=
      if parsedIds.isEmpty then
        match cmap number with
        | some entries => conceptIdsOfEntries entries
        | none => []
      else parsedIds
    some { number := number
           title := String.mk (trimChars titleRaw)
           summary := String.mk (extractSummary block)
           concepts := concepts }

/-- The blocks of the raw text: split on dash delimiters and drop the blocks
that trim to nothing. -/
def outlineBlocks (raw : String) : List (List Char) :=
  (splitDashRuns raw.toList).filter (fun b => !(trimChars b).isEmpty)

/-- The outlines parsed from the blocks, in encounter order. -/
def parsedOutlines (raw : String) (cmap : Nat → Option (List String)) :
    List ChapterOutline :=
  (outlineBlocks raw).filterMap (parseBlock cmap)

/-- The synthesized default record for a missing chapter number. -/
def synthOutline (courseTopics : List String) (cmap : Nat → Option (List String))
    (n : Nat) : ChapterOutline :=
  let title := courseTopics.getD (n - 1) ("Chapter " ++ toString n)
  { number := n
    title := title
    summary := "Chapter " ++ toString n ++ " covers " ++ title ++ "."
    concepts := conceptIdsOfEntries ((cmap n).getD []) }

/-- The chapter numbers from 1 to the required count that no parsed block
produced (the found set is computed before gap filling). -/
def missingChapters (raw : String) (cmap : Nat → Option (List String))
    (chapterCount : Nat) : List Nat :=
  (List.range' 1 chapterCount).filter
    (fun n => decide (n ∉ (parsedOutlines raw cmap).map (fun o => o.number)))

/-- Stable insertion by chapter number: the new record goes after every
record whose number is less than or equal, matching the stable sort of the
source. -/
def insertOutline (o : ChapterOutline) : List ChapterOutline → List ChapterOutline
  | [] => [o]
  | x :: xs => if x.number ≤ o.number then x :: insertOutline o xs else o :: x :: xs

/-- Stable sort ascending by chapter number, as outlines.sort with the
numeric comparator. -/
def sortByNumber (l : List ChapterOutline) : List ChapterOutline :=
  l.foldl (fun acc o => insertOutline o acc) []

/-- parseChapterOutlines from chapter-structure.ts: parse the delimited
blocks, fill the gaps with synthesized defaults, and sort by chapter
number. -/
def parseChapterOutlines (raw : String) (chapterCount : Nat)
    (courseTopics : List String) (cmap : Nat → Option (List String)) :
    List ChapterOutline :=
  sortByNumber
    (parsedOutlines raw cmap ++
      (missingChapters raw cmap chapterCount).map (synthOutline courseTopics cmap))

/-! ## Generation service boundary (src/claude.ts) -/

/-- One entry of the prompt list passed to generateParallel. -/
structure PromptSpec where
  prompt : String
  system : Option String
deriving DecidableEq

/-- generateParallel from claude.ts: it maps generate over the prompts and
joins with Promise.all, so the aggregate resolves to the positionally
aligned result list when every call succeeds and rejects when any call
rejects.  The underlying generate call is the external network boundary and
is passed in as an oracle. -/
def generateParallel {E : Type}
    (gen : String → Option String → Option String → Option Nat → Except E String)
    (prompts : List PromptSpec) (model : Option String) (maxTokens : Option Nat) :
    Except E (List String) :=
  match prompts with
  | [] => Except.ok []
  | p :: ps =>
    match gen p.prompt p.system model maxTokens with
    | Except.error e => Except.error e
    | Except.ok t =>
      match generateParallel gen ps model maxTokens with
      | Except.error e => Except.error e
      | Except.ok ts => Except.ok (t :: ts)

/-! ## Pipeline orchestrator (src/pipeline.ts) -/

/-- The twelve stages, named after the step modules wired into the steps
array of pipeline.ts. -/
inductive StageName
  | courseDescription
  | learningGraph
  | chapterStructure
  | chapterContent
  | microsims
  | glossary
  | faq
  | quizzes
  | references
  | mkdocsConfig
  | metrics
  | readme
deriving DecidableEq

/-- The display names of the steps array. -/
def stageDisplayName : StageName → String
  | .courseDescription => "Course Description"
  | .learningGraph => "Learning Graph"
  | .chapterStructure => "Chapter Structure"
  | .chapterContent => "Chapter Content"
  | .microsims => "MicroSims"
  | .glossary => "Glossary"
  | .faq => "FAQ"
  | .quizzes => "Quizzes"
  | .references => "References"
  | .mkdocsConfig => "MkDocs Config"
  | .metrics => "Metrics"
  | .readme => "README"

/-- The fixed declared stage order of the steps array in pipeline.ts. -/
def steps : List StageName :=
  [.courseDescription, .learningGraph, .chapterStructure, .chapterContent,
   .microsims, .glossary, .faq, .quizzes, .references, .mkdocsConfig,
   .metrics, .readme]

/-- The spinner failure line printed when a stage throws: bracketed position
over total, the stage display name, a colon and the error message (color
codes aside). -/
def failLine (i total : Nat) (name msg : String) : String :=
  "[" ++ toString i ++ "/" ++ toString total ++ "] " ++ name ++ ": " ++ msg

/-- The stage loop of runPipeline.  A stage function mutates the context or
rejects; this is modelled by an implementation oracle returning the updated
context or an error message.  The returned triple is the list of stages
actually invoked in order, the printed failure lines (success lines carry
wall-clock timing and are outside the model), and the outcome.  On a stage
error the loop prints the failure line with the stage display name and
rethrows the original error value unchanged. -/
def runSteps {Ctx : Type} (impl : StageName → Ctx → Except String Ctx)
    (total : Nat) : Nat → List StageName → Ctx →
    List StageName × List String × Except String Ctx
  | _, [], ctx => ([], [], Except.ok ctx)
  | i, s :: rest, ctx =>
    match impl s ctx with
    | Except.error e =>
      ([s], [failLine (i + 1) total (stageDisplayName s) e], Except.error e)
    | Except.ok ctx2 =>
      let out := runSteps impl total (i + 1) rest ctx2
      (s :: out.1, out.2.1, out.2.2)

/-- runPipeline from pipeline.ts: run the declared steps in order from a
fresh context. -/
def runPipeline {Ctx : Type} (impl : StageName → Ctx → Except String Ctx)
    (ctx : Ctx) : List StageName × List String × Except String Ctx :=
  runSteps impl steps.length 0 steps ctx

/-! ## Chapter content stage (src/steps/chapter-content.ts) -/

/-- The observable actions of the chapter-content stage, in order: one
parallel generation call, then one file write per chapter. -/
inductive ContentAction
  | genParallel (prompts : List PromptSpec)
  | writeChapterFile (filename : String) (content : String)
deriving DecidableEq

/-- The guard error thrown when the chapter outline slot is absent or
empty. -/
def chapterContentErrorMsg : String :=
  "Chapter structure must be generated before chapter content."

/-- The SYSTEM prompt string of chapter-content.ts. -/
def chapterContentSystem : String :=
  "You are an expert technical author and educator producing content for an intelligent textbook.\nYour writing is rigorous, precise, and engaging. You use concrete examples, analogies, and visual structures\n(tables, diagrams, callout boxes) to make complex ideas accessible without sacrificing depth.\nYou write for practitioners who want to genuinely understand a domain, not just pass a test."

/-- Model of String(n).padStart(2, the zero digit). -/
def pad2 (n : Nat) : String :=
  let s := toString n
  if s.length < 2 then "0" ++ s else s

/-- The fallback content written when a positional result is missing. -/
def fallbackChapterContent (ch : ChapterOutline) : String :=
  "# Chapter " ++ toString ch.number ++ ": " ++ ch.title ++
    "\n\nContent generation failed."

/-- generateChapterContent from chapter-content.ts.  The prompt text built
by buildChapterPrompt from the context is abstracted as a prompt builder
argument (the claims quantify over every builder); gen is the generate
oracle of the service boundary.  The stage throws its guard error before any
generation call or file write when the chapter slot is absent or empty;
otherwise it issues one parallel generation over one prompt per chapter and,
on success, writes one flat chapter file per chapter. -/
def generateChapterContent
    (gen : String → Option String → Option String → Option Nat → Except String String)
    (buildPrompt : ChapterOutline → String) (model : String)
    (chaptersSlot : Option (List ChapterOutline)) :
    List ContentAction × Except String Unit :=
  let chapters := chaptersSlot.getD []
  if chapters.isEmpty then ([], Except.error chapterContentErrorMsg)
  else
    let prompts := chapters.map
      (fun ch => PromptSpec.mk (buildPrompt ch) (some chapterContentSystem))
    match generateParallel gen prompts (some model) (some 16384) with
    | Except.error e => ([ContentAction.genParallel prompts], Except.error e)
    | Except.ok results =>
      (ContentAction.genParallel prompts ::
        chapters.enum.map (fun p =>
          ContentAction.writeChapterFile
            ("chapter-" ++ pad2 p.2.number ++ ".md")
            (results.getD p.1 (fallbackChapterContent p.2))),
       Except.ok ())

/-! ## Helper lemmas -/

lemma mem_depsOfCell {d id : ℚ} {cell : List Char} (hd : d ∈ depsOfCell id cell) :
    0 < d ∧ d ≠ id := by
  simp only [depsOfCell, List.mem_filterMap] at hd
  obtain ⟨s, _, hs⟩ := hd
  cases hj : jsNumber (trimChars s) with
  | none => rw [hj] at hs; simp at hs
  | some n =>
    rw [hj] at hs
    simp only [Option.some_bind] at hs
    split at hs
    · rename_i hcond
      cases hs
      exact hcond
    · simp at hs

lemma rowToConcept_some {line : List Char} {c : Concept}
    (h : rowToConcept line = some c) :
    ∃ id, jsNumber ((cellsOf line).getD 0 []) = some id ∧
      c = mkConcept (cellsOf line) id ∧ 6 ≤ (cellsOf line).length := by
  simp only [rowToConcept] at h
  split at h
  · exact absurd h (by simp)
  · split at h
    · exact absurd h (by simp)
    · rename_i hlen _
      cases hj : jsNumber ((cellsOf line).getD 0 []) with
      | none => rw [hj] at h; simp at h
      | some id =>
        rw [hj] at h
        simp only [Option.some.injEq] at h
        exact ⟨id, rfl, h.symm, by omega⟩

lemma mem_parseConceptTable {raw : String} {c : Concept}
    (hc : c ∈ parseConceptTable raw) :
    ∃ line, line ∈ (splitOnChar '\n' raw.toList).filter (fun l => l.contains '|') ∧
      rowToConcept line = some c := by
  simpa [parseConceptTable, List.mem_filterMap] using hc

lemma cellsOf_getD_not_empty {line : List Char} (h : 6 ≤ (cellsOf line).length) :
    ((cellsOf line).getD 0 []).isEmpty = false := by
  cases hc : cellsOf line with
  | nil => rw [hc] at h; simp at h
  | cons x xs =>
    have hx : x ∈ cellsOf line := by rw [hc]; exact List.mem_cons_self _ _
    rw [cellsOf] at hx
    have hpred := (List.mem_filter.mp hx).2
    simpa using hpred

lemma mem_insertOutline {a o : ChapterOutline} {l : List ChapterOutline} :
    a ∈ insertOutline o l ↔ a = o ∨ a ∈ l := by
  induction l with
  | nil => simp [insertOutline]
  | cons x xs ih =>
    rw [insertOutline]
    split
    · simp only [List.mem_cons, ih]
      tauto
    · simp only [List.mem_cons]

lemma pairwise_insertOutline {o : ChapterOutline} {l : List ChapterOutline}
    (h : l.Pairwise (fun a b => a.number ≤ b.number)) :
    (insertOutline o l).Pairwise (fun a b => a.number ≤ b.number) := by
  induction l with
  | nil => simp [insertOutline]
  | cons x xs ih =>
    rw [insertOutline]
    rw [List.pairwise_cons] at h
    split
    · rename_i hxo
      rw [List.pairwise_cons]
      refine ⟨fun b hb => ?_, ih h.2⟩
      rcases mem_insertOutline.mp hb with hb | hb
      · exact hb ▸ hxo
      · exact h.1 b hb
    · rename_i hxo
      rw [List.pairwise_cons]
      refine ⟨fun b hb => ?_, List.pairwise_cons.mpr h⟩
      rcases List.mem_cons.mp hb with hb | hb
      · exact hb ▸ Nat.le_of_not_le hxo
      · exact Nat.le_trans (Nat.le_of_not_le hxo) (h.1 b hb)

lemma mem_sortByNumber_aux {a : ChapterOutline} :
    ∀ (l acc : List ChapterOutline),
      a ∈ l.foldl (fun acc o => insertOutline o acc) acc ↔ a ∈ acc ∨ a ∈ l := by
  intro l
  induction l with
  | nil => simp
  | cons x xs ih =>
    intro acc
    rw [List.foldl_cons, ih, mem_insertOutline]
    simp only [List.mem_cons]
    tauto

lemma mem_sortByNumber {a : ChapterOutline} {l : List ChapterOutline} :
    a ∈ sortByNumber l ↔ a ∈ l := by
  rw [sortByNumber, mem_sortByNumber_aux]
  simp

lemma pairwise_sortByNumber_aux :
    ∀ (l acc : List ChapterOutline),
      acc.Pairwise (fun a b => a.number ≤ b.number) →
      (l.foldl (fun acc o => insertOutline o acc) acc).Pairwise
        (fun a b => a.number ≤ b.number) := by
  intro l
  induction l with
  | nil => intro acc h; simpa using h
  | cons x xs ih =>
    intro acc h
    rw [List.foldl_cons]
    exact ih _ (pairwise_insertOutline h)

lemma pairwise_sortByNumber (l : List ChapterOutline) :
    (sortByNumber l).Pairwise (fun a b => a.number ≤ b.number) :=
  pairwise_sortByNumber_aux l [] (by simp)

lemma synthOutline_number (courseTopics : List String)
    (cmap : Nat → Option (List String)) (n : Nat) :
    (synthOutline courseTopics cmap n).number = n := rfl

lemma mem_missingChapters {raw : String} {cmap : Nat → Option (List String)}
    {chapterCount n : Nat} :
    n ∈ missingChapters raw cmap chapterCount ↔
      (1 ≤ n ∧ n < 1 + chapterCount) ∧
        n ∉ (parsedOutlines raw cmap).map (fun o => o.number) := by
  rw [missingChapters, List.mem_filter, List.mem_range'_1]
  simp only [decide_eq_true_eq]

/-! ## Claim theorems -/

/-- Claim C1 (counterexample): the dependency filter of parseConceptTable
drops self references but keeps forward references: a row with identifier 1
and dependency cell 5 yields a record whose dependency list is [5], which is
not strictly less than the identifier. -/
theorem concept_forward_dep_survives :
    parseConceptTable "| 1 | A | 1 | 5 | Core | Apply |" =
      [{ id := 1, name := "A", chapter := 1, dependencies := [5],
         taxonomy := "Core", bloomLevel := "Apply" }] ∧
    ¬((5 : ℚ) < 1) := by
  constructor
  · decide
  · decide

/-- Claim C1 (amended): every identifier in a dependency list of a record
produced by the concept-table extractor is positive and different from the
record identifier; self references and non-numeric or non-positive entries
are dropped silently, but forward references are kept. -/
theorem concept_deps_positive_ne_id (raw : String) (c : Concept)
    (hc : c ∈ parseConceptTable raw) (d : ℚ) (hd : d ∈ c.dependencies) :
    0 < d ∧ d ≠ c.id := by
  obtain ⟨line, _, hrow⟩ := mem_parseConceptTable hc
  obtain ⟨id, _, hceq, _⟩ := rowToConcept_some hrow
  subst hceq
  exact mem_depsOfCell hd

/-- Claim C1 (witness for the amended theorem). -/
theorem concept_deps_positive_ne_id_witness :
    ({ id := 2, name := "B", chapter := 1, dependencies := [1, 3],
       taxonomy := "Advanced", bloomLevel := "Create" } : Concept) ∈
        parseConceptTable "| 2 | B | 1 | 1, 2, 3 | adv | creat |" ∧
    (1 : ℚ) ∈ [(1 : ℚ), 3] ∧ (0 < (1 : ℚ) ∧ (1 : ℚ) ≠ 2) :=
  ⟨by decide, by decide,
    concept_deps_positive_ne_id "| 2 | B | 1 | 1, 2, 3 | adv | creat |"
      { id := 2, name := "B", chapter := 1, dependencies := [1, 3],
        taxonomy := "Advanced", bloomLevel := "Create" }
      (by decide) 1 (by decide)⟩

/-- Claim C5 (counterexample): a separator-containing line whose first
non-empty trimmed cell parses as a number still produces no record when it
has fewer than six non-empty cells, so record production is not equivalent
to the numeric-first-cell test alone. -/
theorem concept_row_numeric_short_line :
    ('|' ∈ "| 1 | A | 2 |".toList) ∧
    (cellsOf ("| 1 | A | 2 |".toList)).getD 0 [] = ['1'] ∧
    jsNumber ['1'] = some 1 ∧
    parseConceptTable "| 1 | A | 2 |" = [] :=
  ⟨by decide, by decide, by decide, by decide⟩

/-- Claim C5 (amended): a line produces a Concept record exactly when it has
at least six non-empty trimmed cells and its first cell coerces to a number;
for such a qualifying row the name is the second cell (which is always
present) and the chapter defaults to 1 when the third cell is unparseable or
coerces to zero. -/
theorem concept_row_qualification (line : List Char) :
    ((∃ c, rowToConcept line = some c) ↔
      (6 ≤ (cellsOf line).length ∧
        ∃ q, jsNumber ((cellsOf line).getD 0 []) = some q))
    ∧ (∀ c, rowToConcept line = some c →
        c.name = String.mk ((cellsOf line).getD 1 []) ∧
        ((jsNumber ((cellsOf line).getD 2 []) = none ∨
            jsNumber ((cellsOf line).getD 2 []) = some 0) → c.chapter = 1)) := by
  constructor
  · constructor
    · rintro ⟨c, hc⟩
      obtain ⟨id, hid, _, hlen⟩ := rowToConcept_some hc
      exact ⟨hlen, id, hid⟩
    · rintro ⟨hlen, q, hq⟩
      refine ⟨mkConcept (cellsOf line) q, ?_⟩
      have hne : ((cellsOf line).getD 0 []).isEmpty = false :=
        cellsOf_getD_not_empty hlen
      simp only [rowToConcept]
      rw [if_neg (by omega)]
      rw [if_neg (by rw [hne]; exact Bool.false_ne_true)]
      rw [hq]
  · intro c hc
    obtain ⟨id, hid, hceq, hlen⟩ := rowToConcept_some hc
    subst hceq
    refine ⟨rfl, fun h2 => ?_⟩
    show chapterOfCell ((cellsOf line).getD 2 []) = 1
    rcases h2 with h2 | h2 <;> (rw [chapterOfCell, h2]; try simp)

/-- Claim C5 (witness for the amended theorem): a qualifying row whose third
cell is unparseable gets chapter 1. -/
theorem concept_row_qualification_witness :
    rowToConcept ("| 7 | N | x | 1 | adv | creat |".toList) =
      some { id := 7, name := "N", chapter := 1, dependencies := [1],
             taxonomy := "Advanced", bloomLevel := "Create" } ∧
    jsNumber ((cellsOf ("| 7 | N | x | 1 | adv | creat |".toList)).getD 2 []) = none ∧
    ({ id := 7, name := "N", chapter := 1, dependencies := [1],
       taxonomy := "Advanced", bloomLevel := "Create" } : Concept).chapter = 1 :=
  ⟨by decide, by decide,
    ((concept_row_qualification ("| 7 | N | x | 1 | adv | creat |".toList)).2
      { id := 7, name := "N", chapter := 1, dependencies := [1],
        taxonomy := "Advanced", bloomLevel := "Create" }
      (by decide)).2 (Or.inl (by decide))⟩

/-- Claim C7: the concept-table extractor is a total function that degrades
to a possibly empty or partial list: it yields at most one record per
separator-containing line, and every record comes from some such line via
the row conversion.  No operation of the source loop can throw, which the
model reflects by being a total function. -/
theorem parseConceptTable_total_partial_list (raw : String) :
    (parseConceptTable raw).length ≤
      ((splitOnChar '\n' raw.toList).filter (fun l => l.contains '|')).length ∧
    ∀ c ∈ parseConceptTable raw,
      ∃ line ∈ (splitOnChar '\n' raw.toList).filter (fun l => l.contains '|'),
        rowToConcept line = some c := by
  constructor
  · exact List.length_filterMap_le _ _
  · intro c hc
    obtain ⟨line, hl, hr⟩ := mem_parseConceptTable hc
    exact ⟨line, hl, hr⟩

/-- Claim C7 (witness). -/
theorem parseConceptTable_total_partial_list_witness :
    ({ id := 3, name := "C", chapter := 2, dependencies := [1],
       taxonomy := "Core", bloomLevel := "Apply" } : Concept) ∈
        parseConceptTable "| 3 | C | 2 | 1 | core | apply |" ∧
    ∃ line ∈ (splitOnChar '\n' ("| 3 | C | 2 | 1 | core | apply |".toList)).filter
        (fun l => l.contains '|'),
      rowToConcept line =
        some { id := 3, name := "C", chapter := 2, dependencies := [1],
               taxonomy := "Core", bloomLevel := "Apply" } :=
  ⟨by decide,
    (parseConceptTable_total_partial_list "| 3 | C | 2 | 1 | core | apply |").2
      { id := 3, name := "C", chapter := 2, dependencies := [1],
        taxonomy := "Core", bloomLevel := "Apply" } (by decide)⟩

/-- Claim C8: taxonomy normalization sends any input whose lower-cased form
contains found to Foundation, any remaining input whose lower-cased form
contains adv to Advanced, and every other input to Core. -/
theorem normalizeTaxonomy_cases (s : List Char) :
    (containsSub ("found".toList) (lowerStr s) = true →
      normalizeTaxonomy s = "Foundation")
    ∧ (containsSub ("found".toList) (lowerStr s) = false →
        containsSub ("adv".toList) (lowerStr s) = true →
          normalizeTaxonomy s = "Advanced")
    ∧ (containsSub ("found".toList) (lowerStr s) = false →
        containsSub ("adv".toList) (lowerStr s) = false →
          normalizeTaxonomy s = "Core") := by
  have hshow : normalizeTaxonomy s =
      (if containsSub ("found".toList) (lowerStr s) then "Foundation"
       else if containsSub ("adv".toList) (lowerStr s) then "Advanced"
       else "Core") := rfl
  refine ⟨fun h => ?_, fun h1 h2 => ?_, fun h1 h2 => ?_⟩ <;> rw [hshow]
  · rw [if_pos h]
  · rw [if_neg (by rw [h1]; exact Bool.false_ne_true), if_pos h2]
  · rw [if_neg (by rw [h1]; exact Bool.false_ne_true),
      if_neg (by rw [h2]; exact Bool.false_ne_true)]

/-- Claim C8 (witness). -/
theorem normalizeTaxonomy_cases_witness :
    containsSub ("found".toList) (lowerStr ("FOUND".toList)) = true ∧
    normalizeTaxonomy ("FOUND".toList) = "Foundation" :=
  ⟨by decide, (normalizeTaxonomy_cases ("FOUND".toList)).1 (by decide)⟩

/-- Claim C9: the Concept IDs field is comma-split, the text before the
first period of each trimmed piece is coerced with Number, and non-numeric
or non-positive results are dropped; in particular the field of 4, 5, abc, 6
yields the identifiers 4, 5 and 6, both at field level and through the whole
chapter-outline extractor. -/
theorem concept_ids_field_parsing :
    parseConceptIdsField ("4, 5, abc, 6".toList) = [4, 5, 6] ∧
    (parseChapterOutlines "## Chapter 1: T\n**Concept IDs:** 4, 5, abc, 6" 1 []
        (fun _ => none)).map (fun o => o.concepts) = [[4, 5, 6]] ∧
    ∀ field : List Char, ∀ n ∈ parseConceptIdsField field, 0 < n := by
  refine ⟨by decide, by decide, ?_⟩
  intro field n hn
  simp only [parseConceptIdsField, List.mem_filterMap] at hn
  obtain ⟨p, _, hp⟩ := hn
  cases hj : jsNumber (leadingDotSegment (trimChars p)) with
  | none => rw [hj] at hp; simp at hp
  | some m =>
    rw [hj] at hp
    simp only [Option.some_bind] at hp
    split at hp
    · rename_i hpos
      cases hp
      exact hpos
    · simp at hp

/-- Claim C2 (counterexample): two blocks claiming the same chapter number
both survive into the result, so the extractor does not return exactly one
record per chapter number: with required total 1 and two blocks for chapter
1 the result has two records for chapter number 1. -/
theorem chapter_outlines_duplicate_numbers :
    (parseChapterOutlines "## Chapter 1: A\n----\n## Chapter 1: B" 1 []
        (fun _ => none)).map (fun o => o.number) = [1, 1] := by
  decide

/-- Claim C2 (amended): the chapter-outline extractor returns a list sorted
ascending by chapter number that contains at least one record for every
chapter number from 1 to the required total; every record is either parsed
from a block of the input or is the synthesized record (fallback title or
generic Chapter N title, and the concept list derived from the mapping) for
a chapter number in range that no parsed block produced.  Duplicate parsed
chapter numbers and parsed numbers outside the range are retained, so a
number may have more than one record. -/
theorem chapter_outlines_cover_and_sorted (raw : String) (N : Nat)
    (topics : List String) (cmap : Nat → Option (List String)) :
    (parseChapterOutlines raw N topics cmap).Pairwise
        (fun a b => a.number ≤ b.number)
    ∧ (∀ n, 1 ≤ n → n ≤ N →
        ∃ o ∈ parseChapterOutlines raw N topics cmap, o.number = n)
    ∧ (∀ o ∈ parseChapterOutlines raw N topics cmap,
        o ∈ parsedOutlines raw cmap ∨
          (1 ≤ o.number ∧ o.number ≤ N ∧
            o = synthOutline topics cmap o.number ∧
            o.number ∉ (parsedOutlines raw cmap).map (fun p => p.number))) := by
  refine ⟨pairwise_sortByNumber _, ?_, ?_⟩
  · intro n h1 hN
    by_cases hmem : n ∈ (parsedOutlines raw cmap).map (fun o => o.number)
    · obtain ⟨o, ho, hno⟩ := List.mem_map.mp hmem
      refine ⟨o, ?_, hno⟩
      simp only [parseChapterOutlines]
      rw [mem_sortByNumber]
      exact List.mem_append.mpr (Or.inl ho)
    · refine ⟨synthOutline topics cmap n, ?_, rfl⟩
      simp only [parseChapterOutlines]
      rw [mem_sortByNumber]
      refine List.mem_append.mpr (Or.inr ?_)
      exact List.mem_map.mpr
        ⟨n, mem_missingChapters.mpr ⟨⟨h1, by omega⟩, hmem⟩, rfl⟩
  · intro o ho
    simp only [parseChapterOutlines] at ho
    rw [mem_sortByNumber] at ho
    rcases List.mem_append.mp ho with h | h
    · exact Or.inl h
    · obtain ⟨n, hn, rfl⟩ := List.mem_map.mp h
      obtain ⟨⟨hn1, hn2⟩, hnotin⟩ := mem_missingChapters.mp hn
      exact Or.inr ⟨hn1, (by omega : n ≤ N), rfl, hnotin⟩

/-- Claim C2 (witness for the amended theorem): with empty input and
required total 1, chapter 1 is covered (by its synthesized record). -/
theorem chapter_outlines_cover_and_sorted_witness :
    ∃ o ∈ parseChapterOutlines "" 1 [] (fun _ => none), o.number = 1 :=
  (chapter_outlines_cover_and_sorted "" 1 [] (fun _ => none)).2.1 1
    (by decide) (by decide)

/-- Claim C9 (witness for the positivity clause). -/
theorem concept_ids_field_parsing_witness :
    (4 : ℚ) ∈ parseConceptIdsField ("4, 5, abc, 6".toList) ∧ (0 : ℚ) < 4 :=
  ⟨by decide,
    concept_ids_field_parsing.2.2 ("4, 5, abc, 6".toList) 4 (by decide)⟩

lemma runSteps_spec {Ctx : Type} (impl : StageName → Ctx → Except String Ctx)
    (total : Nat) :
    ∀ (ss : List StageName) (i : Nat) (ctx : Ctx),
      ((runSteps impl total i ss ctx).1 <+: ss)
      ∧ (∀ c, (runSteps impl total i ss ctx).2.2 = Except.ok c →
          (runSteps impl total i ss ctx).1 = ss)
      ∧ (∀ e, (runSteps impl total i ss ctx).2.2 = Except.error e →
          ∃ k c2, k < ss.length ∧
            (runSteps impl total i ss ctx).1 = ss.take (k + 1) ∧
            impl (ss.getD k StageName.courseDescription) c2 = Except.error e ∧
            (runSteps impl total i ss ctx).2.1 =
              [failLine (i + k + 1) total
                (stageDisplayName (ss.getD k StageName.courseDescription)) e]) := by
  intro ss
  induction ss with
  | nil =>
    intro i ctx
    refine ⟨List.prefix_refl _, fun c _ => rfl, fun e he => ?_⟩
    simp [runSteps] at he
  | cons s rest ih =>
    intro i ctx
    cases himpl : impl s ctx with
    | error e0 =>
      refine ⟨?_, ?_, ?_⟩
      · show (runSteps impl total i (s :: rest) ctx).1 <+: s :: rest
        simp only [runSteps]
        rw [himpl]
        exact ⟨rest, rfl⟩
      · intro c hc
        simp only [runSteps] at hc
        rw [himpl] at hc
        simp at hc
      · intro e he
        simp only [runSteps] at he ⊢
        rw [himpl] at he ⊢
        simp only [Except.error.injEq] at he
        subst he
        exact ⟨0, ctx, by simp, rfl, himpl, by simp⟩
    | ok ctx2 =>
      obtain ⟨ihpre, ihok, iherr⟩ := ih (i + 1) ctx2
      refine ⟨?_, ?_, ?_⟩
      · simp only [runSteps]
        rw [himpl]
        obtain ⟨t, ht⟩ := ihpre
        exact ⟨t, by simp [ht]⟩
      · intro c hc
        simp only [runSteps] at hc ⊢
        rw [himpl] at hc ⊢
        have := ihok c hc
        simp [this]
      · intro e he
        simp only [runSteps] at he ⊢
        rw [himpl] at he ⊢
        obtain ⟨k, c2, hk, htr, hfail, hlog⟩ := iherr e he
        refine ⟨k + 1, c2, by simpa using Nat.succ_lt_succ hk, ?_, ?_, ?_⟩
        · simp only [List.take_succ_cons]
          rw [htr]
        · simpa only [List.getD_cons_succ] using hfail
        · have harith : i + 1 + k + 1 = i + (k + 1) + 1 := by omega
          rw [hlog, harith]
          simp only [List.getD_cons_succ]

/-- Claim C3: the orchestrator invokes the twelve stage functions in the
fixed declared order, each at most once (exactly once on success, since it
awaits each stage before the next), and never invokes a later stage once a
stage rejects: the invocation trace is always a prefix of the declared step
list, equals the whole list when the run succeeds, and is cut immediately
after the failing stage when the run fails. -/
theorem pipeline_stage_order {Ctx : Type}
    (impl : StageName → Ctx → Except String Ctx) (ctx : Ctx) :
    ((runPipeline impl ctx).1 <+: steps)
    ∧ (runPipeline impl ctx).1.Nodup
    ∧ (∀ c, (runPipeline impl ctx).2.2 = Except.ok c →
        (runPipeline impl ctx).1 = steps)
    ∧ (∀ e, (runPipeline impl ctx).2.2 = Except.error e →
        ∃ k, k < steps.length ∧
          (runPipeline impl ctx).1 = steps.take (k + 1)) := by
  obtain ⟨hpre, hok, herr⟩ := runSteps_spec impl steps.length steps 0 ctx
  refine ⟨hpre, ?_, hok, fun e he => ?_⟩
  · exact (by decide : steps.Nodup).sublist hpre.sublist
  · obtain ⟨k, _, hk, htr, _, _⟩ := herr e he
    exact ⟨k, hk, htr⟩

/-- Claim C3 (witness): with an implementation where every stage succeeds,
all twelve stages are invoked in the declared order. -/
theorem pipeline_stage_order_witness :
    (runPipeline (fun (_ : StageName) (c : Unit) => Except.ok c) ()).1 = steps :=
  (pipeline_stage_order (fun _ c => Except.ok c) ()).2.2.1 () rfl

/-- Claim C4 (counterexample): when the first stage rejects with the error
boom, the orchestrator propagates exactly that error to its caller — the
propagated value does not carry the display name of the failing stage, which
appears only in the printed failure line. -/
theorem pipeline_error_not_stage_named :
    (runPipeline (fun (_ : StageName) (_ : Unit) => Except.error "boom") ()).2.2 =
      Except.error "boom" ∧
    containsSub ("Course Description".toList) ("boom".toList) = false ∧
    (runPipeline (fun (_ : StageName) (_ : Unit) => Except.error "boom") ()).2.1 =
      [failLine 1 12 "Course Description" "boom"] :=
  ⟨rfl, by decide, rfl⟩

/-- Claim C4 (amended): on a stage failure the orchestrator aborts the run
and propagates the failing stage's error value unchanged; the stage display
name is attached only to the printed failure line, not to the propagated
error. -/
theorem pipeline_error_unwrapped {Ctx : Type}
    (impl : StageName → Ctx → Except String Ctx) (ctx : Ctx) (e : String)
    (h : (runPipeline impl ctx).2.2 = Except.error e) :
    ∃ k c2, k < steps.length ∧
      impl (steps.getD k StageName.courseDescription) c2 = Except.error e ∧
      (runPipeline impl ctx).2.1 =
        [failLine (k + 1) steps.length
          (stageDisplayName (steps.getD k StageName.courseDescription)) e] := by
  obtain ⟨_, _, herr⟩ := runSteps_spec impl steps.length steps 0 ctx
  obtain ⟨k, c2, hk, _, hfail, hlog⟩ := herr e h
  refine ⟨k, c2, hk, hfail, ?_⟩
  show (runSteps impl steps.length 0 steps ctx).2.1 = _
  rw [hlog, Nat.zero_add]

/-- Claim C4 (witness for the amended theorem). -/
theorem pipeline_error_unwrapped_witness :
    ∃ k c2, k < steps.length ∧
      (fun (_ : StageName) (_ : Unit) =>
          (Except.error "boom" : Except String Unit))
          (steps.getD k StageName.courseDescription) c2 = Except.error "boom" ∧
      (runPipeline (fun (_ : StageName) (_ : Unit) =>
          (Except.error "boom" : Except String Unit)) ()).2.1 =
        [failLine (k + 1) steps.length
          (stageDisplayName (steps.getD k StageName.courseDescription)) "boom"] := by
  exact pipeline_error_unwrapped
    (fun _ _ => (Except.error "boom" : Except String Unit)) () "boom" rfl

/-- Claim C6: generateParallel returns exactly one result per prompt,
positionally aligned (result i is the text generated for prompt i), whenever
every underlying generate call succeeds; and the aggregate call fails
whenever any single underlying call fails. -/
theorem generateParallel_aligned_or_fails {E : Type}
    (gen : String → Option String → Option String → Option Nat → Except E String)
    (prompts : List PromptSpec) (model : Option String) (maxTokens : Option Nat) :
    ((∀ p ∈ prompts, ∃ t, gen p.prompt p.system model maxTokens = Except.ok t) →
      ∃ res, generateParallel gen prompts model maxTokens = Except.ok res ∧
        res.length = prompts.length ∧
        ∀ i, i < prompts.length →
          gen (prompts.getD i (PromptSpec.mk "" none)).prompt
              (prompts.getD i (PromptSpec.mk "" none)).system model maxTokens =
            Except.ok (res.getD i ""))
    ∧ ((∃ p ∈ prompts, ∃ e, gen p.prompt p.system model maxTokens = Except.error e) →
        ∃ e, generateParallel gen prompts model maxTokens = Except.error e) := by
  induction prompts with
  | nil =>
    constructor
    · intro _
      exact ⟨[], rfl, rfl, fun i hi => by simp at hi⟩
    · rintro ⟨p, hp, _⟩
      simp at hp
  | cons p ps ih =>
    constructor
    · intro h
      obtain ⟨t, ht⟩ := h p (List.mem_cons_self _ _)
      obtain ⟨res, hres, hlen, hidx⟩ :=
        ih.1 (fun q hq => h q (List.mem_cons_of_mem _ hq))
      refine ⟨t :: res, ?_, by simp [hlen], ?_⟩
      · simp only [generateParallel]
        rw [ht, hres]
      · intro i hi
        cases i with
        | zero => simpa using ht
        | succ j =>
          simp only [List.getD_cons_succ]
          exact hidx j (by simpa using hi)
    · rintro ⟨q, hq, e, he⟩
      rcases List.mem_cons.mp hq with rfl | hq2
      · refine ⟨e, ?_⟩
        simp only [generateParallel]
        rw [he]
      · cases hgp : gen p.prompt p.system model maxTokens with
        | error e2 =>
          refine ⟨e2, ?_⟩
          simp only [generateParallel]
          rw [hgp]
        | ok t =>
          obtain ⟨e3, he3⟩ := ih.2 ⟨q, hq2, e, he⟩
          refine ⟨e3, ?_⟩
          simp only [generateParallel]
          rw [hgp, he3]

/-- Claim C6 (witness): two prompts, all calls succeeding. -/
theorem generateParallel_aligned_or_fails_witness :
    ∃ res,
      generateParallel
          (fun (p : String) (_ : Option String) (_ : Option String)
            (_ : Option Nat) => (Except.ok p : Except String String))
          [PromptSpec.mk "a" none, PromptSpec.mk "b" none] none none =
        Except.ok res ∧
      res.length = [PromptSpec.mk "a" none, PromptSpec.mk "b" none].length ∧
      ∀ i, i < [PromptSpec.mk "a" none, PromptSpec.mk "b" none].length →
        (fun (p : String) (_ : Option String) (_ : Option String)
            (_ : Option Nat) => (Except.ok p : Except String String))
            (([PromptSpec.mk "a" none, PromptSpec.mk "b" none].getD i
              (PromptSpec.mk "" none)).prompt)
            (([PromptSpec.mk "a" none, PromptSpec.mk "b" none].getD i
              (PromptSpec.mk "" none)).system) none none =
          Except.ok (res.getD i "") := by
  exact (generateParallel_aligned_or_fails
      (fun p _ _ _ => (Except.ok p : Except String String))
      [PromptSpec.mk "a" none, PromptSpec.mk "b" none] none none).1
    (fun p _ => ⟨p.prompt, rfl⟩)

/-- Claim C10: the chapter-content stage throws its guard error (exactly the
message about chapter structure) when the chapter-outline slot is absent or
empty, before issuing any generation call or writing any file (its action
trace is empty); with at least one chapter outline it proceeds directly to
the parallel generation call over one prompt per chapter. -/
theorem chapter_content_guard
    (gen : String → Option String → Option String → Option Nat → Except String String)
    (buildPrompt : ChapterOutline → String) (model : String)
    (chaptersSlot : Option (List ChapterOutline)) :
    (chaptersSlot.getD [] = [] →
      generateChapterContent gen buildPrompt model chaptersSlot =
        ([], Except.error chapterContentErrorMsg))
    ∧ (∀ l, chaptersSlot.getD [] = l → l ≠ [] →
        ∃ rest, (generateChapterContent gen buildPrompt model chaptersSlot).1 =
          ContentAction.genParallel (l.map (fun ch =>
            PromptSpec.mk (buildPrompt ch) (some chapterContentSystem))) :: rest) := by
  constructor
  · intro h
    simp only [generateChapterContent]
    rw [h]
    rfl
  · intro l hl hne
    have hb : l.isEmpty = false := by
      cases l with
      | nil => exact absurd rfl hne
      | cons x xs => rfl
    simp only [generateChapterContent]
    rw [hl]
    rw [if_neg (by rw [hb]; exact Bool.false_ne_true)]
    cases generateParallel gen
        (l.map (fun ch => PromptSpec.mk (buildPrompt ch) (some chapterContentSystem)))
        (some model) (some 16384) with
    | error e => exact ⟨[], rfl⟩
    | ok results =>
      refine ⟨_, rfl⟩

/-- Claim C10 (witness): with an absent chapter slot the stage returns the
guard error and performs no action. -/
theorem chapter_content_guard_witness :
    generateChapterContent (fun _ _ _ _ => Except.ok "") (fun _ => "") "m" none =
      ([], Except.error chapterContentErrorMsg) :=
  (chapter_content_guard (fun _ _ _ _ => Except.ok "") (fun _ => "") "m" none).1 rfl

end Textbook
